import Mathlib

/-!
# Verification of the STM32F0 CRC test program

A shallow embedding of `src/src/crc.rs` and `src/src/main.rs`
(repository `Pagten/stm32f0-crc-test`).  Machine integers (`u8`, `u16`,
`u32`) are embedded as `Nat`, with `% 2^w` wherever the Rust code wraps
or truncates.
-/

namespace Stm32Crc

/-! ## Bit-reflection utilities (src/src/crc.rs, module `software`, lines 183-200) -/

/-- Embeds `fn reflect8(mut v: u32) -> u32`: reverses the bit order inside
each of the four bytes of `v`, byte positions unchanged.  The left shifts
cannot overflow a `u32` because the masks clear the bits that would be
shifted out, but the `% 2^32` wrap of Rust `u32` arithmetic is kept. -/
def reflect8 (v : Nat) : Nat :=
  let v := ((v >>> 1) &&& 0x55555555) ||| (((v &&& 0x55555555) <<< 1) % 2^32)
  let v := ((v >>> 2) &&& 0x33333333) ||| (((v &&& 0x33333333) <<< 2) % 2^32)
  ((v >>> 4) &&& 0x0F0F0F0F) ||| (((v &&& 0x0F0F0F0F) <<< 4) % 2^32)

/-- Embeds `fn reflect16(mut v: u32) -> u32`: reverses the bit order of each
16-bit half of `v`. -/
def reflect16 (v : Nat) : Nat :=
  let v := reflect8 v
  ((v >>> 8) &&& 0x00FF00FF) ||| (((v &&& 0x00FF00FF) <<< 8) % 2^32)

/-- Embeds `fn reflect32(mut v: u32) -> u32`: reverses the bit order of the
full 32-bit value.  Here `v << 16` does overflow `u32` and wraps. -/
def reflect32 (v : Nat) : Nat :=
  let v := reflect16 v
  (v >>> 16) ||| ((v <<< 16) % 2^32)

/-! ## Configuration / data model (src/src/crc.rs, lines 6-79) -/

/-- Embeds `enum BitReversal` (input-reflection mode). -/
inductive BitReversal
  | Disabled
  | By8Bits
  | By16Bits
  | By32Bits
deriving DecidableEq, Repr

/-- The order in which `strum::EnumIter` enumerates `BitReversal`
(declaration order). -/
def BitReversal.iter : List BitReversal :=
  [.Disabled, .By8Bits, .By16Bits, .By32Bits]

/-- Embeds `enum Polynomial`: width-tagged coefficient.  The payloads are
`u8`, `u8`, `u16`, `u32` in the source; `Wf` below records those payload
bounds. -/
inductive Polynomial
  | Crc7 (v : Nat)
  | Crc8 (v : Nat)
  | Crc16 (v : Nat)
  | Crc32 (v : Nat)
deriving DecidableEq, Repr

/-- The payload of a `Polynomial` fits its Rust payload type
(`u8`/`u8`/`u16`/`u32`).  Note the `Crc7` payload type is `u8`: the Rust
type system bounds it by `2^8`, not by `2^7`. -/
def Polynomial.Wf : Polynomial → Prop
  | .Crc7 v => v < 2^8
  | .Crc8 v => v < 2^8
  | .Crc16 v => v < 2^16
  | .Crc32 v => v < 2^32

instance : DecidablePred Polynomial.Wf := by
  intro p; cases p <;> simp only [Polynomial.Wf] <;> infer_instance

/-- Embeds `Polynomial::bits`. -/
def Polynomial.bits : Polynomial → Nat
  | .Crc7 _ => 7
  | .Crc8 _ => 8
  | .Crc16 _ => 16
  | .Crc32 _ => 32

/-- Embeds `Polynomial::value`: the coefficient widened to a 32-bit
container (the widening cast is the identity on the payload's numeric
value). -/
def Polynomial.value : Polynomial → Nat
  | .Crc7 v => v
  | .Crc8 v => v
  | .Crc16 v => v
  | .Crc32 v => v

/-- Embeds `struct CrcConfig`. -/
structure CrcConfig where
  reflect_input : BitReversal
  reflect_output : Bool
  initial_value : Nat
  polynomial : Polynomial

/-- Embeds `enum Step`: one input chunk, tagged by width. -/
inductive Step
  | Data8 (v : Nat)
  | Data16 (v : Nat)
  | Data32 (v : Nat)
deriving DecidableEq, Repr

/-- Embeds `struct CrcCalculation`. -/
structure CrcCalculation where
  config : CrcConfig
  steps : List Step

/-! ## BitReversal methods (src/src/crc.rs, lines 143-170) -/

/-- Embeds `BitReversal::reflect32(&self, v: u32) -> u32`. -/
def BitReversal.reflect32 : BitReversal → Nat → Nat
  | .Disabled, v => v
  | .By8Bits, v => Stm32Crc.reflect8 v
  | .By16Bits, v => Stm32Crc.reflect16 v
  | .By32Bits, v => Stm32Crc.reflect32 v

/-- Embeds `BitReversal::reflect16(&self, v: u16) -> u16`; the
`as u16` casts are `% 2^16`. -/
def BitReversal.reflect16 : BitReversal → Nat → Nat
  | .Disabled, v => v
  | .By8Bits, v => Stm32Crc.reflect8 v % 2^16
  | .By16Bits, v => Stm32Crc.reflect16 v % 2^16
  | .By32Bits, v => Stm32Crc.reflect16 v % 2^16

/-- Embeds `BitReversal::reflect8(&self, v: u8) -> u8`; the
`as u8` cast is `% 2^8`. -/
def BitReversal.reflect8 : BitReversal → Nat → Nat
  | .Disabled, v => v
  | .By8Bits, v => Stm32Crc.reflect8 v % 2^8
  | .By16Bits, v => Stm32Crc.reflect8 v % 2^8
  | .By32Bits, v => Stm32Crc.reflect8 v % 2^8

/-- Embeds `Polynomial::reflect_output(&self, output: u32) -> u32`
(src/src/crc.rs, lines 172-181): a 7-bit polynomial's result is reflected
as 8 bits then shifted right by one; the other widths reflect at their own
width. -/
def Polynomial.reflect_output : Polynomial → Nat → Nat
  | .Crc7 _, output => Stm32Crc.reflect8 output >>> 1
  | .Crc8 _, output => Stm32Crc.reflect8 output
  | .Crc16 _, output => Stm32Crc.reflect16 output
  | .Crc32 _, output => Stm32Crc.reflect32 output

/-! ## The canonical CRC engine

The software engine delegates the CRC arithmetic itself to the external
crate `crc_any` (`CRCu32::create_crc(poly, bits, initial, 0, false)`),
whose source is not part of this repository. -/

/-- Modelled from the spec: the canonical CRC engine used by
`run_software` (`crc_any::CRCu32::create_crc` with final xor 0 and no
built-in reflection — spec §4.3: "a canonical CRC engine parameterized by
(polynomial value, polynomial width, initial value, no built-in
input/output reflection)").  One bit of the most-significant-bit-first
update of a `w`-bit register: the decision bit is the register's top bit
xored with the incoming data bit; when set, the register (shifted left by
one) is xored with the polynomial.  All register arithmetic is modulo
`2^w`. -/
def crcUpdateBit (w poly : Nat) (s : Nat) (b : Bool) : Nat :=
  let t := s.testBit (w - 1)
  let s := (s <<< 1) % 2^w
  if t != b then (s ^^^ poly) % 2^w else s

/-- Modelled from the spec: digesting one byte feeds its 8 bits most
significant first. -/
def crcUpdateByte (w poly : Nat) (s : Nat) (byte : Nat) : Nat :=
  (List.range 8).foldl (fun s i => crcUpdateBit w poly s (byte.testBit (7 - i))) s

/-- Modelled from the spec: digesting a byte sequence in order
(`CRCu32::digest`). -/
def crcBytes (w poly : Nat) (s : Nat) (bytes : List Nat) : Nat :=
  bytes.foldl (crcUpdateByte w poly) s

/-- Modelled from the spec: a complete run of the canonical engine — the
`w`-bit register starts at the initial value (truncated to the register's
width), digests the bytes, and the final register value is returned with
no final xor (`CRCu32::get_crc` with `final_xor = 0`). -/
def crcRun (w poly init : Nat) (bytes : List Nat) : Nat :=
  crcBytes w poly (init % 2^w) bytes

/-! ## Byte serialization (`to_be_bytes`) -/

/-- `u16::to_be_bytes`: most-significant byte first. -/
def u16_to_be_bytes (v : Nat) : List Nat :=
  [(v >>> 8) % 2^8, v % 2^8]

/-- `u32::to_be_bytes`: most-significant byte first. -/
def u32_to_be_bytes (v : Nat) : List Nat :=
  [(v >>> 24) % 2^8, (v >>> 16) % 2^8, (v >>> 8) % 2^8, v % 2^8]

/-! ## The software engine (src/src/crc.rs, lines 116-140) -/

/-- Embeds `CrcCalculation::run_software`: create the canonical engine,
digest each step's input-reflected value as its big-endian bytes, and
apply the output reflection to the final register value if enabled. -/
def CrcCalculation.run_software (c : CrcCalculation) : Nat :=
  let w := c.config.polynomial.bits
  let poly := c.config.polynomial.value
  let input_reversal := c.config.reflect_input
  let result := c.steps.foldl (fun s step =>
    match step with
    | .Data8 v => crcBytes w poly s [input_reversal.reflect8 v]
    | .Data16 v => crcBytes w poly s (u16_to_be_bytes (input_reversal.reflect16 v))
    | .Data32 v => crcBytes w poly s (u32_to_be_bytes (input_reversal.reflect32 v)))
    (c.config.initial_value % 2^w)
  if c.config.reflect_output then c.config.polynomial.reflect_output result else result

/-- The byte sequence that `run_software` digests for one `Step`: the
step's value, input-reflected at the step's own width, serialized
most-significant byte first. -/
def stepBytes (r : BitReversal) : Step → List Nat
  | .Data8 v => [r.reflect8 v]
  | .Data16 v => u16_to_be_bytes (r.reflect16 v)
  | .Data32 v => u32_to_be_bytes (r.reflect32 v)

/-! ## The hardware engine (src/src/crc.rs, lines 85-108) -/

/-- An abstract model of the stm32 CRC peripheral's register interface
(the `stm32::CRC` handle plus the manually addressed `pol` register): an
opaque state type with one operation per register access that
`run_hardware` performs.  How the state reacts to each operation — in
particular which value the final data-register read returns — is the
physical peripheral's behavior, outside the program, and is therefore
left abstract (an oracle, like the hardware outcome in the runner
model). -/
structure CrcPeripheral (σ : Type) where
  write_init : σ → Nat → σ
  write_pol : σ → Nat → σ
  write_cr : σ → BitReversal → Bool → Nat → σ
  write_dr8 : σ → Nat → σ
  write_dr16 : σ → Nat → σ
  write_dr : σ → Nat → σ
  read_dr : σ → Nat

/-- Embeds `CrcCalculation::run_hardware` (src/src/crc.rs lines 85-108):
program the initial-value register, program the polynomial-coefficient
register (the manual volatile write to `0x40023014`), program the
control register with the input-reflection mode, the output-reflection
flag, the polynomial width (`poly_size()`, here its bit count) and the
reset bit in a single write, feed each step's raw (unreflected) value to
the data port matching its width in sequence order, and read back the
32-bit data register. -/
def CrcCalculation.run_hardware (c : CrcCalculation) {σ : Type}
    (crc : CrcPeripheral σ) (s : σ) : Nat :=
  let s := crc.write_init s c.config.initial_value
  let s := crc.write_pol s c.config.polynomial.value
  let s := crc.write_cr s c.config.reflect_input c.config.reflect_output
    c.config.polynomial.bits
  let s := c.steps.foldl (fun s step =>
    match step with
    | .Data8 v => crc.write_dr8 s v
    | .Data16 v => crc.write_dr16 s v
    | .Data32 v => crc.write_dr s v) s
  crc.read_dr s

/-! ## The validation matrix and runner (src/src/main.rs) -/

/-- Embeds `static POLYNOMIALS` (src/src/main.rs, lines 30-36). -/
def POLYNOMIALS : List Polynomial :=
  [.Crc7 0x9, .Crc8 0x7, .Crc16 0x8005, .Crc32 0x1EDC6F41, .Crc32 0x04C11DB7]

/-- Embeds `static INITIAL_VALUES` (src/src/main.rs, lines 37-41). -/
def INITIAL_VALUES : List Nat :=
  [0x00000000, 0xFFFFFFFF, 0x000000FF]

/-- Embeds `fn steps()` (src/src/main.rs, lines 43-53). -/
def steps : List (List Step) :=
  [ [],
    [.Data8 0x42],
    [.Data16 0x4232],
    [.Data8 0x42, .Data8 0x32, .Data8 0x68, .Data8 0xA4],
    [.Data16 0x4232, .Data16 0x68A4],
    [.Data32 0x423268A4],
    [.Data32 0x423268A4, .Data32 0xAD91FE38] ]

/-- The calculations enumerated by the nested loops of `run_tests`
(src/src/main.rs, lines 89-112), in their fixed nested order: polynomials,
then input-reflection modes, then output-reflect `false`/`true`, then
initial values, then step sequences. -/
def testMatrix : List CrcCalculation :=
  POLYNOMIALS.flatMap (fun polynomial =>
    BitReversal.iter.flatMap (fun reflect_input =>
      [false, true].flatMap (fun reflect_output =>
        INITIAL_VALUES.flatMap (fun initial_value =>
          steps.map (fun s =>
            ⟨⟨reflect_input, reflect_output, initial_value, polynomial⟩, s⟩)))))

/-- Embeds the comparison in `fn crc_test` (src/src/main.rs, lines
125-136): a case passes iff the hardware output equals the software
output.  The hardware output is abstracted as an oracle `hw`. -/
def crc_test (hw : CrcCalculation → Nat) (c : CrcCalculation) : Bool :=
  hw c = c.run_software

/-- Embeds the counting and summary logic of `fn run_tests`
(src/src/main.rs, lines 81-115): run every enumerated case, count passes
and failures, and emit the final summary line
`test result: <ok|FAILED>. <passed> passed; <failed> failed`.  Returns
(passed, failed, summary line). -/
def run_tests (hw : CrcCalculation → Nat) : Nat × Nat × String :=
  let counts := testMatrix.foldl
    (fun pf c => if crc_test hw c then (pf.1 + 1, pf.2) else (pf.1, pf.2 + 1))
    ((0 : Nat), (0 : Nat))
  let result := if counts.2 = 0 then "ok" else "FAILED"
  (counts.1, counts.2,
    "test result: " ++ result ++ ". " ++ toString counts.1 ++ " passed; " ++
      toString counts.2 ++ " failed\r\n")

/-! ## Specification-side definitions -/

/-- Specification-side bit reversal: `natBitRev w x` reverses the low `w`
bits of `x` (bit `i` moves to position `w - 1 - i`) and clears all higher
bits.  Used as the independent yardstick the source's shift-and-mask
reflectors are compared against. -/
def natBitRev : Nat → Nat → Nat
  | 0, _ => 0
  | w + 1, x => ((x % 2) <<< w) ||| natBitRev w (x / 2)

/-! ## Helper lemmas: bounds of the reflectors -/

theorem reflect8_lt (v : Nat) : reflect8 v < 2^32 := by
  unfold reflect8
  exact Nat.or_lt_two_pow (Nat.lt_of_le_of_lt Nat.and_le_right (by norm_num))
    (Nat.mod_lt _ (by norm_num))

theorem reflect16_lt (v : Nat) : reflect16 v < 2^32 := by
  unfold reflect16
  exact Nat.or_lt_two_pow (Nat.lt_of_le_of_lt Nat.and_le_right (by norm_num))
    (Nat.mod_lt _ (by norm_num))

theorem reflect32_lt (v : Nat) : reflect32 v < 2^32 := by
  unfold reflect32
  exact Nat.or_lt_two_pow
    (Nat.lt_of_le_of_lt (Nat.shiftRight_eq_div_pow (reflect16 v) 16 ▸ Nat.div_le_self _ _)
      (reflect16_lt v))
    (Nat.mod_lt _ (by norm_num))

/-! ## Helper lemmas: bit-level characterization of the reflectors -/

set_option maxHeartbeats 1600000 in
/-- Bit `i` of `reflect8 v` is bit `i` of `v` with the position reversed
inside its byte. -/
theorem reflect8_testBit (v i : Nat) :
    (reflect8 v).testBit i = (decide (i < 32) && v.testBit (8 * (i / 8) + 7 - i % 8)) := by
  by_cases hi : i < 32
  · rw [decide_eq_true hi, Bool.true_and]
    interval_cases i <;>
    · simp only [reflect8, Nat.testBit_lor, Nat.testBit_land,
        Nat.testBit_shiftLeft, Nat.testBit_shiftRight, Nat.testBit_mod_two_pow]
      norm_num [Nat.testBit_to_div_mod]
  · rw [decide_eq_false hi, Bool.false_and]
    exact Nat.testBit_lt_two_pow (Nat.lt_of_lt_of_le (reflect8_lt v)
      (Nat.pow_le_pow_right (by norm_num) (Nat.le_of_not_lt hi)))

set_option maxHeartbeats 1600000 in
/-- Bit `i` of `reflect16 v` is bit `i` of `v` with the position reversed
inside its 16-bit half. -/
theorem reflect16_testBit (v i : Nat) :
    (reflect16 v).testBit i = (decide (i < 32) && v.testBit (16 * (i / 16) + 15 - i % 16)) := by
  by_cases hi : i < 32
  · rw [decide_eq_true hi, Bool.true_and]
    interval_cases i <;>
    · simp only [reflect16, Nat.testBit_lor, Nat.testBit_land,
        Nat.testBit_shiftLeft, Nat.testBit_shiftRight, Nat.testBit_mod_two_pow,
        reflect8_testBit]
      norm_num [Nat.testBit_to_div_mod]
  · rw [decide_eq_false hi, Bool.false_and]
    exact Nat.testBit_lt_two_pow (Nat.lt_of_lt_of_le (reflect16_lt v)
      (Nat.pow_le_pow_right (by norm_num) (Nat.le_of_not_lt hi)))

set_option maxHeartbeats 1600000 in
/-- Bit `i` of `reflect32 v` (for `i < 32`) is bit `31 - i` of `v`. -/
theorem reflect32_testBit (v i : Nat) (h : i < 32) :
    (reflect32 v).testBit i = v.testBit (31 - i) := by
  interval_cases i <;>
  · simp only [reflect32, Nat.testBit_lor, Nat.testBit_land,
      Nat.testBit_shiftLeft, Nat.testBit_shiftRight, Nat.testBit_mod_two_pow,
      reflect16_testBit]
    norm_num [Nat.testBit_to_div_mod]

/-! ## Helper lemmas: the specification-side reversal `natBitRev` -/

theorem natBitRev_lt (w x : Nat) : natBitRev w x < 2^w := by
  induction w generalizing x with
  | zero => simp [natBitRev]
  | succ w ih =>
      apply Nat.or_lt_two_pow
      · rw [Nat.shiftLeft_eq, pow_succ, Nat.mul_comm (2^w) 2]
        exact Nat.mul_lt_mul_of_lt_of_le (Nat.mod_lt x (by norm_num)) (Nat.le_refl _)
          (Nat.pos_pow_of_pos w (by norm_num))
      · exact Nat.lt_of_lt_of_le (ih (x / 2)) (Nat.pow_le_pow_right (by norm_num) (Nat.le_succ w))

theorem natBitRev_testBit (w x i : Nat) :
    (natBitRev w x).testBit i = (decide (i < w) && x.testBit (w - 1 - i)) := by
  induction w generalizing x i with
  | zero => simp [natBitRev]
  | succ w ih =>
      simp only [natBitRev, Nat.testBit_lor, Nat.testBit_shiftLeft, ih]
      rcases Nat.lt_trichotomy i w with h | h | h
      · rw [decide_eq_false (by omega : ¬ i ≥ w), Bool.false_and, Bool.false_or,
          decide_eq_true h, decide_eq_true (by omega : i < w + 1), Bool.true_and,
          Bool.true_and, ← Nat.testBit_succ]
        congr 1
        omega
      · subst h
        rw [decide_eq_true (Nat.le_refl i), Bool.true_and, Nat.sub_self,
          decide_eq_false (by omega : ¬ i < i), Bool.false_and, Bool.or_false,
          decide_eq_true (by omega : i < i + 1), Bool.true_and]
        have h2 : x % 2 = x % 2^1 := by norm_num
        rw [h2, Nat.testBit_mod_two_pow]
        simp
      · rw [decide_eq_true (by omega : i ≥ w), Bool.true_and,
          decide_eq_false (by omega : ¬ i < w), Bool.false_and, Bool.or_false,
          decide_eq_false (by omega : ¬ i < w + 1), Bool.false_and]
        exact Nat.testBit_lt_two_pow
          (Nat.lt_of_lt_of_le (Nat.mod_lt x (by norm_num))
            (by calc (2:Nat) = 2^1 := by norm_num
                  _ ≤ 2^(i - w) := Nat.pow_le_pow_right (by norm_num) (by omega)))

/-! ## Helper lemmas: involutions and agreement with `natBitRev` -/

/-- `reflect16` is an involution on 32-bit values. -/
theorem reflect16_reflect16 (x : Nat) (hx : x < 2^32) :
    reflect16 (reflect16 x) = x := by
  apply Nat.eq_of_testBit_eq
  intro i
  by_cases hi : i < 32
  · simp only [reflect16_testBit]
    rw [show 16 * ((16 * (i / 16) + 15 - i % 16) / 16) + 15 - (16 * (i / 16) + 15 - i % 16) % 16
          = i from by omega,
      decide_eq_true hi, decide_eq_true (show 16 * (i / 16) + 15 - i % 16 < 32 from by omega),
      Bool.true_and, Bool.true_and]
  · rw [reflect16_testBit, decide_eq_false hi, Bool.false_and]
    exact (Nat.testBit_lt_two_pow (Nat.lt_of_lt_of_le hx
      (Nat.pow_le_pow_right (by norm_num) (Nat.le_of_not_lt hi)))).symm

/-- `reflect32` is an involution on 32-bit values. -/
theorem reflect32_reflect32 (x : Nat) (hx : x < 2^32) :
    reflect32 (reflect32 x) = x := by
  apply Nat.eq_of_testBit_eq
  intro i
  by_cases hi : i < 32
  · rw [reflect32_testBit _ _ hi, reflect32_testBit _ _ (show 31 - i < 32 from by omega)]
    congr 1
    omega
  · rw [Nat.testBit_lt_two_pow (Nat.lt_of_lt_of_le (reflect32_lt (reflect32 x))
        (Nat.pow_le_pow_right (by norm_num) (Nat.le_of_not_lt hi))),
      Nat.testBit_lt_two_pow (Nat.lt_of_lt_of_le hx
        (Nat.pow_le_pow_right (by norm_num) (Nat.le_of_not_lt hi)))]

set_option maxRecDepth 100000 in
/-- On 8-bit values, `reflect8` is exactly the 8-bit bit reversal. -/
theorem reflect8_eq_natBitRev : ∀ x < 2^8, reflect8 x = natBitRev 8 x := by
  decide

set_option maxRecDepth 100000 in
/-- On 8-bit values, `reflect8` is an involution. -/
theorem reflect8_reflect8_byte : ∀ x < 2^8, reflect8 (reflect8 x) = x := by
  decide

/-- On 16-bit values, `reflect16` is exactly the 16-bit bit reversal. -/
theorem reflect16_eq_natBitRev (x : Nat) (hx : x < 2^16) :
    reflect16 x = natBitRev 16 x := by
  apply Nat.eq_of_testBit_eq
  intro i
  rw [reflect16_testBit, natBitRev_testBit]
  by_cases h16 : i < 16
  · rw [decide_eq_true (show i < 32 from by omega), decide_eq_true h16,
      Bool.true_and, Bool.true_and,
      show 16 * (i / 16) + 15 - i % 16 = 16 - 1 - i from by omega]
  · by_cases h32 : i < 32
    · rw [decide_eq_true h32, Bool.true_and, decide_eq_false h16, Bool.false_and]
      exact Nat.testBit_lt_two_pow (Nat.lt_of_lt_of_le hx
        (Nat.pow_le_pow_right (by norm_num) (by omega)))
    · rw [decide_eq_false h32, decide_eq_false h16, Bool.false_and, Bool.false_and]

/-- On 32-bit values, `reflect32` is exactly the 32-bit bit reversal. -/
theorem reflect32_eq_natBitRev (x : Nat) (hx : x < 2^32) :
    reflect32 x = natBitRev 32 x := by
  apply Nat.eq_of_testBit_eq
  intro i
  rw [natBitRev_testBit]
  by_cases hi : i < 32
  · rw [reflect32_testBit _ _ hi, decide_eq_true hi, Bool.true_and,
      show (32:Nat) - 1 - i = 31 - i from by omega]
  · rw [decide_eq_false hi, Bool.false_and]
    exact Nat.testBit_lt_two_pow (Nat.lt_of_lt_of_le (reflect32_lt x)
      (Nat.pow_le_pow_right (by norm_num) (Nat.le_of_not_lt hi)))

/-- Extracting byte `j/8` of `reflect8 v` gives the bit reversal of the
corresponding byte of `v`: `reflect8` works byte by byte, in place. -/
theorem reflect8_byte (v j : Nat) (hj : j = 0 ∨ j = 8 ∨ j = 16 ∨ j = 24) :
    (reflect8 v >>> j) % 2^8 = natBitRev 8 ((v >>> j) % 2^8) := by
  rcases hj with rfl | rfl | rfl | rfl <;>
  · apply Nat.eq_of_testBit_eq
    intro i
    by_cases hi : i < 8
    · interval_cases i <;>
      · simp only [Nat.testBit_mod_two_pow, Nat.testBit_shiftRight, Nat.shiftRight_zero,
          reflect8_testBit, natBitRev_testBit]
        norm_num
    · simp only [Nat.testBit_mod_two_pow, natBitRev_testBit,
        decide_eq_false hi, Bool.false_and]

/-- Shifting out the high byte of a 16-bit truncation. -/
theorem mod_two_pow_16_shiftRight_8 (x : Nat) :
    ((x % 2^16) >>> 8) % 2^8 = (x >>> 8) % 2^8 := by
  apply Nat.eq_of_testBit_eq
  intro i
  simp only [Nat.testBit_mod_two_pow, Nat.testBit_shiftRight]
  by_cases hi : i < 8
  · rw [decide_eq_true hi, decide_eq_true (show 8 + i < 16 from by omega)]
    simp
  · rw [decide_eq_false hi]
    simp

/-! ## Helper lemmas: digest structure of the software engine -/

/-- The per-step fold of `run_software` digests exactly the concatenation
of the per-step byte sequences. -/
theorem foldl_stepBytes (w poly : Nat) (r : BitReversal) (L : List Step) (s : Nat) :
    L.foldl (fun s step =>
      match step with
      | .Data8 v => crcBytes w poly s [r.reflect8 v]
      | .Data16 v => crcBytes w poly s (u16_to_be_bytes (r.reflect16 v))
      | .Data32 v => crcBytes w poly s (u32_to_be_bytes (r.reflect32 v))) s
    = crcBytes w poly s (L.flatMap (stepBytes r)) := by
  induction L generalizing s with
  | nil => rfl
  | cons st L ih =>
      rw [List.foldl_cons, ih, List.flatMap_cons]
      show _ = List.foldl _ s (stepBytes r st ++ L.flatMap (stepBytes r))
      rw [List.foldl_append]
      cases st <;> rfl

/-- `run_software`, factored through the digested byte stream: the result
is the canonical CRC of the concatenation of the per-step byte sequences,
with the output reflection applied if enabled. -/
theorem run_software_digest (r : BitReversal) (ro : Bool) (iv : Nat) (p : Polynomial)
    (stepList : List Step) :
    CrcCalculation.run_software ⟨⟨r, ro, iv, p⟩, stepList⟩ =
      (if ro then
        p.reflect_output (crcRun p.bits p.value iv (stepList.flatMap (stepBytes r)))
      else
        crcRun p.bits p.value iv (stepList.flatMap (stepBytes r))) := by
  show (if ro then p.reflect_output (stepList.foldl _ _) else stepList.foldl _ _) = _
  rw [foldl_stepBytes]
  rfl

/-! ## Helper lemmas: counters of the runner -/

/-- The pass/fail counters of the runner's fold sum to the number of
enumerated cases. -/
theorem foldl_counts (hw : CrcCalculation → Nat) (L : List CrcCalculation) :
    ∀ p0 f0 : Nat,
      (L.foldl (fun pf c => if crc_test hw c then (pf.1 + 1, pf.2) else (pf.1, pf.2 + 1)) (p0, f0)).1 +
      (L.foldl (fun pf c => if crc_test hw c then (pf.1 + 1, pf.2) else (pf.1, pf.2 + 1)) (p0, f0)).2 =
      p0 + f0 + L.length := by
  induction L with
  | nil => intro p0 f0; simp
  | cons c L ih =>
      intro p0 f0
      simp only [List.foldl_cons, List.length_cons]
      by_cases h : crc_test hw c = true
      · rw [if_pos h, show ((p0, f0).1 + 1, (p0, f0).2) = (p0 + 1, f0) from rfl, ih (p0 + 1) f0]
        omega
      · rw [if_neg h, show ((p0, f0).1, (p0, f0).2 + 1) = (p0, f0 + 1) from rfl, ih p0 (f0 + 1)]
        omega

/-! ## Claims -/

set_option maxRecDepth 100000 in
/-- C1 (counterexample): the width-splitting equivalence fails for configs
whose input-reflection mode is `By16Bits` or `By32Bits`.  Under `By16Bits`
with the CRC-32 polynomial, zero initial value and no output reflection,
the single `Data32 0xAABBCCDD` step digests the bytes
`[0xDD, 0x55, 0xBB, 0x33]` while the four `Data8` steps digest
`[0x55, 0xDD, 0x33, 0xBB]`, and the results differ; under `By32Bits` the
`Data32` and `Data16` splits differ as well. -/
theorem claim_C1_counterexample :
    CrcCalculation.run_software
        ⟨⟨.By16Bits, false, 0, .Crc32 0x04C11DB7⟩, [.Data32 0xAABBCCDD]⟩ ≠
      CrcCalculation.run_software
        ⟨⟨.By16Bits, false, 0, .Crc32 0x04C11DB7⟩,
          [.Data8 0xAA, .Data8 0xBB, .Data8 0xCC, .Data8 0xDD]⟩ ∧
    CrcCalculation.run_software
        ⟨⟨.By32Bits, false, 0, .Crc32 0x04C11DB7⟩, [.Data32 0xAABBCCDD]⟩ ≠
      CrcCalculation.run_software
        ⟨⟨.By32Bits, false, 0, .Crc32 0x04C11DB7⟩, [.Data16 0xAABB, .Data16 0xCCDD]⟩ := by
  constructor <;> decide

/-- C1 (amended): for any fixed config whose input-reflection mode is
`Disabled` or `By8Bits`, `run_software` on the single step
`Data32(0xAABBCCDD)` returns the same result as on the two steps
`Data16(0xAABB), Data16(0xCCDD)`, which equals the result on the four
steps `Data8(0xAA), Data8(0xBB), Data8(0xCC), Data8(0xDD)`.  (For
`By16Bits` and `By32Bits` the per-step reflection granularity is clamped
to the step's width, so the digested byte streams — and the results —
differ between the splits.) -/
theorem claim_C1_amended (cfg : CrcConfig)
    (h : cfg.reflect_input = .Disabled ∨ cfg.reflect_input = .By8Bits) :
    CrcCalculation.run_software ⟨cfg, [.Data32 0xAABBCCDD]⟩ =
      CrcCalculation.run_software ⟨cfg, [.Data16 0xAABB, .Data16 0xCCDD]⟩ ∧
    CrcCalculation.run_software ⟨cfg, [.Data16 0xAABB, .Data16 0xCCDD]⟩ =
      CrcCalculation.run_software ⟨cfg, [.Data8 0xAA, .Data8 0xBB, .Data8 0xCC, .Data8 0xDD]⟩ := by
  obtain ⟨r, ro, iv, p⟩ := cfg
  have key : ∀ L1 L2 : List Step,
      L1.flatMap (stepBytes r) = L2.flatMap (stepBytes r) →
      CrcCalculation.run_software ⟨⟨r, ro, iv, p⟩, L1⟩ =
        CrcCalculation.run_software ⟨⟨r, ro, iv, p⟩, L2⟩ := by
    intro L1 L2 hL
    rw [run_software_digest, run_software_digest, hL]
  rcases h with h | h <;> cases h <;>
    exact ⟨key _ _ (by decide), key _ _ (by decide)⟩

/-- C1 (witness for the amended claim): the split equivalence at the
concrete config (`Disabled`, no output reflection, init 0, CRC-32
polynomial). -/
theorem claim_C1_witness :
    CrcCalculation.run_software
        ⟨⟨.Disabled, false, 0, .Crc32 0x04C11DB7⟩, [.Data32 0xAABBCCDD]⟩ =
      CrcCalculation.run_software
        ⟨⟨.Disabled, false, 0, .Crc32 0x04C11DB7⟩, [.Data16 0xAABB, .Data16 0xCCDD]⟩ ∧
    CrcCalculation.run_software
        ⟨⟨.Disabled, false, 0, .Crc32 0x04C11DB7⟩, [.Data16 0xAABB, .Data16 0xCCDD]⟩ =
      CrcCalculation.run_software
        ⟨⟨.Disabled, false, 0, .Crc32 0x04C11DB7⟩,
          [.Data8 0xAA, .Data8 0xBB, .Data8 0xCC, .Data8 0xDD]⟩ :=
  claim_C1_amended ⟨.Disabled, false, 0, .Crc32 0x04C11DB7⟩ (Or.inl rfl)

set_option maxRecDepth 10000 in
/-- C2 (counterexample): with an empty step sequence the result is NOT
always the initial value itself — the canonical engine's register is only
`bits` wide, so the initial value is truncated: with an 8-bit polynomial
and initial value `0xFFFFFFFF` the result is `0xFF`. -/
theorem claim_C2_counterexample :
    CrcCalculation.run_software ⟨⟨.Disabled, false, 0xFFFFFFFF, .Crc8 0x07⟩, []⟩ = 0xFF ∧
    CrcCalculation.run_software ⟨⟨.Disabled, false, 0xFFFFFFFF, .Crc8 0x07⟩, []⟩ ≠ 0xFFFFFFFF := by
  constructor <;> decide

/-- C2 (amended): for every config, `run_software` with an empty step
sequence returns the configured initial value truncated to the
polynomial's width (`% 2^bits`), passed through
`Polynomial.reflect_output` when the output-reflect flag is set and
unmodified otherwise. -/
theorem claim_C2_amended (cfg : CrcConfig) :
    CrcCalculation.run_software ⟨cfg, []⟩ =
      if cfg.reflect_output then
        cfg.polynomial.reflect_output (cfg.initial_value % 2^cfg.polynomial.bits)
      else
        cfg.initial_value % 2^cfg.polynomial.bits := by
  obtain ⟨r, ro, iv, p⟩ := cfg
  cases ro <;> rfl

/-- C2 (witness): the amended empty-input rule at a concrete config. -/
theorem claim_C2_witness :
    CrcCalculation.run_software ⟨⟨.Disabled, true, 0xFFFFFFFF, .Crc8 0x07⟩, []⟩ =
      if true then (Polynomial.Crc8 0x07).reflect_output (0xFFFFFFFF % 2^(Polynomial.Crc8 0x07).bits)
      else 0xFFFFFFFF % 2^(Polynomial.Crc8 0x07).bits :=
  claim_C2_amended ⟨.Disabled, true, 0xFFFFFFFF, .Crc8 0x07⟩

/-- C3: input reflection is applied per step at the step's own width and
the (possibly reflected) value is digested as its most-significant-byte-
first byte sequence: (1) `run_software` equals the canonical CRC of the
concatenation of the per-step byte sequences `stepBytes`, where
`stepBytes` reflects each step at the step's width (independent of the
polynomial) and serializes big-endian; (2)-(4) in `By8Bits` (ByByte) mode
the bytes of each step are each bit-reversed in place, preserving byte
order, at every step width. -/
theorem claim_C3 :
    (∀ (r : BitReversal) (ro : Bool) (iv : Nat) (p : Polynomial) (stepList : List Step),
      CrcCalculation.run_software ⟨⟨r, ro, iv, p⟩, stepList⟩ =
        (if ro then
          p.reflect_output (crcRun p.bits p.value iv (stepList.flatMap (stepBytes r)))
        else
          crcRun p.bits p.value iv (stepList.flatMap (stepBytes r)))) ∧
    (∀ v, v < 2^8 → stepBytes .By8Bits (.Data8 v) = [natBitRev 8 v]) ∧
    (∀ v, v < 2^16 →
      stepBytes .By8Bits (.Data16 v) = (u16_to_be_bytes v).map (natBitRev 8)) ∧
    (∀ v, v < 2^32 →
      stepBytes .By8Bits (.Data32 v) = (u32_to_be_bytes v).map (natBitRev 8)) := by
  refine ⟨fun r ro iv p stepList => run_software_digest r ro iv p stepList,
    fun v hv => ?_, fun v _ => ?_, fun v _ => ?_⟩
  · show [Stm32Crc.reflect8 v % 2^8] = [natBitRev 8 v]
    rw [reflect8_eq_natBitRev v hv, Nat.mod_eq_of_lt (natBitRev_lt 8 v)]
  · show u16_to_be_bytes (Stm32Crc.reflect8 v % 2^16) = _
    simp only [u16_to_be_bytes, List.map]
    rw [mod_two_pow_16_shiftRight_8, Nat.mod_mod_of_dvd _ (by norm_num : (2:Nat)^8 ∣ 2^16),
      reflect8_byte v 8 (by tauto),
      show Stm32Crc.reflect8 v % 2^8 = natBitRev 8 (v % 2^8) from by
        have h0 := reflect8_byte v 0 (by tauto)
        rwa [Nat.shiftRight_zero, Nat.shiftRight_zero] at h0]
  · show u32_to_be_bytes (Stm32Crc.reflect8 v) = _
    simp only [u32_to_be_bytes, List.map]
    rw [reflect8_byte v 24 (by tauto), reflect8_byte v 16 (by tauto), reflect8_byte v 8 (by tauto),
      show Stm32Crc.reflect8 v % 2^8 = natBitRev 8 (v % 2^8) from by
        have h0 := reflect8_byte v 0 (by tauto)
        rwa [Nat.shiftRight_zero, Nat.shiftRight_zero] at h0]

set_option maxRecDepth 100000 in
/-- C3 (witness): the digest structure and the ByByte byte-map rule at
concrete inputs. -/
theorem claim_C3_witness :
    CrcCalculation.run_software ⟨⟨.By8Bits, false, 0, .Crc8 0x07⟩, [.Data16 0x4232]⟩ =
      (if false then
        (Polynomial.Crc8 0x07).reflect_output
          (crcRun (Polynomial.Crc8 0x07).bits (Polynomial.Crc8 0x07).value 0
            ([Step.Data16 0x4232].flatMap (stepBytes .By8Bits)))
      else
        crcRun (Polynomial.Crc8 0x07).bits (Polynomial.Crc8 0x07).value 0
          ([Step.Data16 0x4232].flatMap (stepBytes .By8Bits))) ∧
    stepBytes .By8Bits (.Data16 0x4232) = (u16_to_be_bytes 0x4232).map (natBitRev 8) :=
  ⟨claim_C3.1 .By8Bits false 0 (.Crc8 0x07) [.Data16 0x4232],
   claim_C3.2.2.1 0x4232 (by decide)⟩

/-- C4: the 7-bit output-reflection rule — `reflect_output` of a `Crc7`
polynomial reflects the value as the 8-bit-wide reflection (the `Crc8`
transform) and shifts right one bit; `Crc8`, `Crc16` and `Crc32`
polynomials reflect exactly at their declared widths (agreeing with the
true bit reversal `natBitRev` at 8, 16 and 32 bits on values of that
width). -/
theorem claim_C4 (c : Nat) :
    (∀ x, x < 2^32 →
      Polynomial.reflect_output (.Crc7 c) x = Polynomial.reflect_output (.Crc8 c) x >>> 1) ∧
    (∀ x, x < 2^8 → Polynomial.reflect_output (.Crc8 c) x = natBitRev 8 x) ∧
    (∀ x, x < 2^16 → Polynomial.reflect_output (.Crc16 c) x = natBitRev 16 x) ∧
    (∀ x, x < 2^32 → Polynomial.reflect_output (.Crc32 c) x = natBitRev 32 x) :=
  ⟨fun _ _ => rfl,
   fun x hx => reflect8_eq_natBitRev x hx,
   fun x hx => reflect16_eq_natBitRev x hx,
   fun x hx => reflect32_eq_natBitRev x hx⟩

/-- C4 (witness): the output-reflection rules at concrete register
values. -/
theorem claim_C4_witness :
    Polynomial.reflect_output (.Crc7 0x09) 0x55 =
      Polynomial.reflect_output (.Crc8 0x09) 0x55 >>> 1 ∧
    Polynomial.reflect_output (.Crc8 0x07) 0x42 = natBitRev 8 0x42 ∧
    Polynomial.reflect_output (.Crc16 0x8005) 0x4232 = natBitRev 16 0x4232 ∧
    Polynomial.reflect_output (.Crc32 0x04C11DB7) 0x423268A4 = natBitRev 32 0x423268A4 :=
  ⟨(claim_C4 0x09).1 0x55 (by decide),
   (claim_C4 0x07).2.1 0x42 (by decide),
   (claim_C4 0x8005).2.2.1 0x4232 (by decide),
   (claim_C4 0x04C11DB7).2.2.2 0x423268A4 (by decide)⟩

/-- C5: the bit-reflection utilities are involutions at their respective
widths — `reflect8` on 8-bit values, `reflect16` on 16-bit values and
`reflect32` on 32-bit values each return the original value when applied
twice. -/
theorem claim_C5 :
    (∀ x, x < 2^8 → reflect8 (reflect8 x) = x) ∧
    (∀ x, x < 2^16 → reflect16 (reflect16 x) = x) ∧
    (∀ x, x < 2^32 → reflect32 (reflect32 x) = x) :=
  ⟨fun x hx => reflect8_reflect8_byte x hx,
   fun x hx => reflect16_reflect16 x (Nat.lt_of_lt_of_le hx (by norm_num)),
   fun x hx => reflect32_reflect32 x hx⟩

/-- C5 (witness): the involutions at concrete 8-, 16- and 32-bit
values. -/
theorem claim_C5_witness :
    reflect8 (reflect8 0x42) = 0x42 ∧
    reflect16 (reflect16 0x4232) = 0x4232 ∧
    reflect32 (reflect32 0x423268A4) = 0x423268A4 :=
  ⟨claim_C5.1 0x42 (by decide),
   claim_C5.2.1 0x4232 (by decide),
   claim_C5.2.2 0x423268A4 (by decide)⟩

/-- C6: the 7-bit output-reflect transform is not self-inverse: at
`x = 0x80` (bit 7 set, which the reflect-as-8-bits-then-shift transform
discards) applying it twice gives `0`, not `x`. -/
theorem claim_C6 :
    ∃ x, x < 2^32 ∧
      Polynomial.reflect_output (.Crc7 0x09)
        (Polynomial.reflect_output (.Crc7 0x09) x) ≠ x :=
  ⟨0x80, by decide, by decide⟩

set_option maxRecDepth 1000000 in
/-- C7: for any hardware oracle, the runner's single summary has pass and
fail counters summing to the number of enumerated combinations (840: 5
polynomials x 4 input-reflection modes x 2 output-reflect flags x 3
initial values x 7 step sequences, enumerated in that fixed nested order),
and its summary line reads
`test result: <ok|FAILED>. <passed> passed; <failed> failed` with status
`ok` exactly when the failed counter is zero. -/
theorem claim_C7 (hw : CrcCalculation → Nat) :
    (run_tests hw).1 + (run_tests hw).2.1 = testMatrix.length ∧
    testMatrix.length = 840 ∧
    (run_tests hw).2.2 =
      "test result: " ++ (if (run_tests hw).2.1 = 0 then "ok" else "FAILED") ++ ". " ++
        toString (run_tests hw).1 ++ " passed; " ++ toString (run_tests hw).2.1 ++
        " failed\r\n" := by
  refine ⟨?_, by decide, rfl⟩
  have h := foldl_counts hw testMatrix 0 0
  simpa using h

set_option maxRecDepth 10000 in
/-- The software engine on the concrete CRC-8 vector — 8-bit polynomial
`0x07`, no input or output reflection, zero initial value, single step
`Data8(0x42)` — returns `0xC9`, the CRC-8/SMBUS-style checksum of the
byte `0x42`.  (The hardware engine's value on this vector is the physical
peripheral's data-register content, which the embedding leaves abstract.) -/
theorem run_software_crc8_vector :
    CrcCalculation.run_software ⟨⟨.Disabled, false, 0x00000000, .Crc8 0x07⟩, [.Data8 0x42]⟩ = 0xC9 := by
  decide

/-- C9 (counterexample): the width invariant is not enforced for `Crc7` —
the payload type is `u8`, so `Crc7 0x80` is constructible, is well-formed
for the payload type, and its `value()` has bit 7 set, beyond the declared
7-bit width. -/
theorem claim_C9_counterexample :
    Polynomial.Wf (.Crc7 0x80) ∧
    ¬ (Polynomial.value (.Crc7 0x80) < 2^(Polynomial.bits (.Crc7 0x80))) := by
  decide

/-- C9 (amended): among constructible (payload-well-formed) `Polynomial`
values, `Crc8`, `Crc16` and `Crc32` coefficients always fit their declared
widths (the payload type equals the width class), while a `Crc7`
coefficient fits its declared 7-bit width exactly when its `u8` payload is
below `2^7`. -/
theorem claim_C9_amended (p : Polynomial) (hp : p.Wf) :
    p.value < 2^p.bits ↔ (match p with | .Crc7 v => v < 2^7 | _ => True) := by
  cases p with
  | Crc7 v => exact Iff.rfl
  | Crc8 v => exact iff_true_intro hp
  | Crc16 v => exact iff_true_intro hp
  | Crc32 v => exact iff_true_intro hp

/-- C9 (witness): the amended invariant at the program's own `Crc8 0x07`
polynomial. -/
theorem claim_C9_witness :
    (Polynomial.Crc8 0x07).value < 2^(Polynomial.Crc8 0x07).bits ↔ True :=
  claim_C9_amended (.Crc8 0x07) (by decide)

/-- C10: the effective input reflection is clamped to the step's width —
on 8-bit step values the three enabled modes apply the identical
single-byte reversal (`BitReversal::reflect8` agrees across them), and on
16-bit step values `By16Bits` and `By32Bits` apply the identical 16-bit
reversal (`BitReversal::reflect16` agrees across them). -/
theorem claim_C10 :
    (∀ v, v < 2^8 →
      BitReversal.By8Bits.reflect8 v = BitReversal.By16Bits.reflect8 v ∧
      BitReversal.By16Bits.reflect8 v = BitReversal.By32Bits.reflect8 v) ∧
    (∀ v, v < 2^16 →
      BitReversal.By16Bits.reflect16 v = BitReversal.By32Bits.reflect16 v) :=
  ⟨fun _ _ => ⟨rfl, rfl⟩, fun _ _ => rfl⟩

/-- C10 (witness): the agreement of the enabled modes at concrete 8- and
16-bit step values. -/
theorem claim_C10_witness :
    (BitReversal.By8Bits.reflect8 0x42 = BitReversal.By16Bits.reflect8 0x42 ∧
      BitReversal.By16Bits.reflect8 0x42 = BitReversal.By32Bits.reflect8 0x42) ∧
    BitReversal.By16Bits.reflect16 0x4232 = BitReversal.By32Bits.reflect16 0x4232 :=
  ⟨claim_C10.1 0x42 (by decide), claim_C10.2 0x4232 (by decide)⟩

end Stm32Crc
